import Mathlib

/-!
# SmartGallery: verification of the persistence layer and the AI gateway

Shallow embedding of `src/ai_engine.py` (class `AIEngine`) and
`src/database.py` (class `Database`) from the SmartGallery repository,
together with theorems settling the specification claims about them.

Python/JSON values are modelled by the inductive `PyVal`; Python exceptions
that can escape the embedded functions are modelled by `PyExc` and an
`Except` return type.  The SQLite store is modelled by explicit lists of
rows; each operation of `Database` opens its own connection, so the
connection-level `lastrowid` state is local to each embedded operation.
-/

/-- Python / JSON values as far as the AI engine manipulates them.
`null` doubles as Python `None` (which is what `json.loads("null")` and a
missing `dict.get` key both produce). Numbers are modelled as integers;
the engine never does arithmetic on them. -/
inductive PyVal where
  | null : PyVal
  | bool (b : Bool) : PyVal
  | num (n : Int) : PyVal
  | str (s : String) : PyVal
  | arr (xs : List PyVal) : PyVal
  | obj (fields : List (String × PyVal)) : PyVal

/-- Python truthiness (`bool(v)`) of a `PyVal`. -/
def PyVal.truthy : PyVal → Bool
  | .null => false
  | .bool b => b
  | .num n => n != 0
  | .str s => s ≠ ""
  | .arr xs => !xs.isEmpty
  | .obj fs => !fs.isEmpty

/-- `dict.get(k, default)` on the field list of a Python dict:
the first binding of `k`, or `default` when absent. -/
def pyGetD (fields : List (String × PyVal)) (k : String) (default : PyVal) : PyVal :=
  match fields.find? (fun kv => kv.1 = k) with
  | some kv => kv.2
  | none => default

/-- Python exceptions that matter to `AIEngine.analyze_image`. -/
inductive PyExc where
  | attributeError : PyExc
  | keyError : PyExc
  | typeError : PyExc

namespace AIEngine

/-- The analysis triple built by `analyze_image` / `_parse_ai_response`.
The Python code stores raw decoded-JSON values in the dict, so the field
types are `PyVal`, not `String`/`List String`/`Bool`. -/
structure AIResult where
  description : PyVal
  tags : PyVal
  nsfw : PyVal

/-- `MOCK_RESPONSE` from `ai_engine.py`. -/
def MOCK_RESPONSE : AIResult :=
  { description := .str "[DEV] A placeholder description of a cat."
    tags := .arr [.str "test", .str "cat", .str "1girl", .str "indoors"]
    nsfw := .bool false }

/-- Outcome of `image_path.read_bytes()` in `_encode_image`: the bytes
themselves never influence the result, only success vs `OSError`. -/
inductive ReadOutcome where
  | osError : ReadOutcome
  | ok : ReadOutcome

/-- Outcome of `requests.post(...)`, `raise_for_status()` and
`response.json()` taken together.

* `requestError` — any `requests.RequestException`, including non-2xx
  responses raised by `raise_for_status()`.
* `okInvalidJson` — 2xx response whose body is not valid JSON:
  `response.json()` raises `requests.exceptions.JSONDecodeError`, which is
  a subclass of `requests.RequestException`, so the first `except` clause
  of `analyze_image` catches it.
* `ok body` — 2xx response whose body decodes to the JSON value `body`. -/
inductive HttpOutcome where
  | requestError : HttpOutcome
  | okInvalidJson : HttpOutcome
  | ok (body : PyVal) : HttpOutcome

/-- The external world of one `analyze_image` call in live mode: the file
read outcome, the HTTP outcome, and the semantics of `json.loads` on the
nested response text (`none` models `json.JSONDecodeError`). -/
structure LiveEnv where
  read : ReadOutcome
  http : HttpOutcome
  loads : String → Option PyVal

/-- `AIEngine._parse_ai_response(response_data)`.

`response_data.get("response")` raises `AttributeError` when the decoded
body is not a dict; likewise `parsed.get(...)` when the nested document is
not a dict.  The inner `try` only catches `json.JSONDecodeError`, so those
`AttributeError`s escape this function. `none` models the Python `return
None` paths. -/
def parse_ai_response (loads : String → Option PyVal) (response_data : PyVal) :
    Except PyExc (Option AIResult) :=
  match response_data with
  | .obj fields =>
    match pyGetD fields "response" .null with
    | .str text =>
      match loads text with
      | none => .ok none
      | some parsed =>
        match parsed with
        | .obj pfields =>
          let description :=
            let d := pyGetD pfields "description" .null
            if d.truthy then d else pyGetD pfields "caption" .null
          let tags0 :=
            let t := pyGetD pfields "tags" .null
            if t.truthy then t else .arr []
          let tags :=
            match tags0 with
            | .arr xs => PyVal.arr xs
            | _ => MOCK_RESPONSE.tags
          .ok (some
            { description := if description.truthy then description
                             else MOCK_RESPONSE.description
              tags := tags
              nsfw := .bool (pyGetD pfields "nsfw" (.bool false)).truthy })
        | _ => .error .attributeError
    | _ => .ok none
  | _ => .error .attributeError

/-- `AIEngine.analyze_image(image_path)`.

An `Except.error` value models an exception escaping the function: the
outer `try` catches `requests.RequestException` and
`(json.JSONDecodeError, KeyError, TypeError)` but not `AttributeError`. -/
def analyze_image (use_real_ai : Bool) (env : LiveEnv) : Except PyExc AIResult :=
  if !use_real_ai then .ok MOCK_RESPONSE
  else
    match env.read with
    | .osError => .ok { MOCK_RESPONSE with description := .str "[DEV] Unable to read image." }
    | .ok =>
      match env.http with
      | .requestError =>
        .ok { MOCK_RESPONSE with description := .str "[DEV] AI service unreachable." }
      | .okInvalidJson =>
        .ok { MOCK_RESPONSE with description := .str "[DEV] AI service unreachable." }
      | .ok body =>
        match parse_ai_response env.loads body with
        | .ok (some parsed) => .ok parsed
        | .ok none => .ok MOCK_RESPONSE
        | .error .attributeError => .error .attributeError
        | .error _ => .ok { MOCK_RESPONSE with description := .str "[DEV] Unexpected AI response." }

end AIEngine

namespace Database

/-- A row of the `images` table (`id`, `path`, `description`,
`processed_flag`, `created_at`).  `created_at` is the `CURRENT_TIMESTAMP`
value at insertion, modelled as a natural number. -/
structure Image where
  id : Nat
  path : String
  description : String
  processed_flag : Bool
  created_at : Nat
  deriving Repr, DecidableEq

/-- A row of the `tags` table. -/
structure Tag where
  id : Nat
  name : String
  deriving Repr, DecidableEq

/-- The SQLite database state: the three tables of `_ensure_db`, the
`AUTOINCREMENT` counters of the two rowid tables, and a clock supplying
`CURRENT_TIMESTAMP` for new image rows. -/
structure DB where
  images : List Image
  tags : List Tag
  image_tags : List (Nat × Nat)
  next_image_id : Nat
  next_tag_id : Nat
  now : Nat
  deriving Repr, DecidableEq

/-- Schema-level well-formedness: the UNIQUE/PRIMARY KEY constraints of
`_ensure_db` (unique image ids and paths, unique tag ids and names, at
most one join row per pair), plus the `AUTOINCREMENT` facts that rowids
are at least 1 and below the next counter. -/
def Wf (db : DB) : Prop :=
  db.images.Pairwise (fun a b => a.id ≠ b.id ∧ a.path ≠ b.path) ∧
  db.tags.Pairwise (fun a b => a.id ≠ b.id ∧ a.name ≠ b.name) ∧
  db.image_tags.Nodup ∧
  (∀ img ∈ db.images, 1 ≤ img.id ∧ img.id < db.next_image_id) ∧
  (∀ t ∈ db.tags, 1 ≤ t.id ∧ t.id < db.next_tag_id) ∧
  1 ≤ db.next_image_id ∧ 1 ≤ db.next_tag_id

instance (db : DB) : Decidable (Wf db) := by
  unfold Wf; infer_instance

/-- `Database.add_image(path, description, processed_flag)`.

`INSERT OR IGNORE` inserts only when the path is new.  The operation runs
on a fresh connection, so when the insert is ignored
`sqlite3_last_insert_rowid` is 0, `cursor.lastrowid` is falsy, and the
existing id is fetched by the SELECT fallback. -/
def add_image (db : DB) (path : String) (description : String := "")
    (processed_flag : Bool := false) : Nat × DB :=
  match db.images.find? (fun img => img.path = path) with
  | some img => (img.id, db)
  | none =>
    let img : Image :=
      { id := db.next_image_id, path := path, description := description
        processed_flag := processed_flag, created_at := db.now }
    (db.next_image_id,
      { db with images := db.images ++ [img]
                next_image_id := db.next_image_id + 1
                now := db.now + 1 })

/-- `Database.update_image_metadata(image_id, description, processed_flag)`:
an UPDATE matching on id; a no-op when no row matches. -/
def update_image_metadata (db : DB) (image_id : Nat) (description : String)
    (processed_flag : Bool := true) : DB :=
  { db with images := db.images.map (fun img =>
      if img.id = image_id then
        { img with description := description, processed_flag := processed_flag }
      else img) }

/-- Python's `str.strip()`: drop whitespace from both ends. -/
def pyStrip (s : String) : String :=
  String.mk (((s.data.dropWhile Char.isWhitespace).reverse.dropWhile
    Char.isWhitespace).reverse)

/-- The list comprehension `[name.strip() for name in names if name.strip()]`. -/
def cleanNames (names : List String) : List String :=
  names.filterMap (fun n => if pyStrip n = "" then none else some (pyStrip n))

/-- The loop body of `Database.upsert_tags`, with the connection-level
`sqlite3_last_insert_rowid` value threaded through (`0` on a fresh
connection).

When `INSERT OR IGNORE` actually inserts, `cursor.lastrowid` is the new
rowid.  When the insert is IGNOREd, `cursor.lastrowid` is the rowid of the
last *successful* insert on this connection — stale but truthy once any
insert has happened in this loop, in which case the Python code appends it
without doing the SELECT fallback. -/
def upsertLoop (db : DB) (lastrowid : Nat) : List String → List Nat × DB
  | [] => ([], db)
  | name :: rest =>
    match db.tags.find? (fun t => t.name = name) with
    | some t =>
      let r := upsertLoop db lastrowid rest
      ((if lastrowid ≠ 0 then lastrowid else t.id) :: r.1, r.2)
    | none =>
      let id := db.next_tag_id
      let db1 := { db with tags := db.tags ++ [{ id := id, name := name }]
                           next_tag_id := id + 1 }
      let r := upsertLoop db1 id rest
      (id :: r.1, r.2)

/-- `Database.upsert_tags(names)`: clean the names, then run the insert
loop on a fresh connection (initial `lastrowid` 0). -/
def upsert_tags (db : DB) (names : List String) : List Nat × DB :=
  upsertLoop db 0 (cleanNames names)

/-- The two FOREIGN KEY constraints of `image_tags` (`PRAGMA foreign_keys`
is ON in `_connect`). -/
def fkOk (db : DB) (image_id tag_id : Nat) : Bool :=
  db.images.any (fun img => img.id = image_id) &&
  db.tags.any (fun t => t.id = tag_id)

/-- `Database.link_tags_to_image(image_id, tag_ids)`.

`INSERT OR IGNORE` on the composite primary key skips duplicate pairs; a
foreign-key violation is *not* ignored — it raises `IntegrityError`
(modelled as `none`) and the connection context manager rolls the
transaction back. -/
def link_tags_to_image (db : DB) (image_id : Nat) (tag_ids : List Nat) : Option DB :=
  if tag_ids.all (fun tid => fkOk db image_id tid) then
    let rows := tag_ids.foldl
      (fun rows tid => if (image_id, tid) ∈ rows then rows else rows ++ [(image_id, tid)])
      db.image_tags
    some { db with image_tags := rows }
  else none

/-- `Database.clear_tags(image_id)`: delete all join rows of the image. -/
def clear_tags (db : DB) (image_id : Nat) : DB :=
  { db with image_tags := db.image_tags.filter (fun p => p.1 ≠ image_id) }

/-- `ORDER BY created_at DESC` as a relation on image rows. -/
def createdDesc (a b : Image) : Prop := b.created_at ≤ a.created_at

instance : DecidableRel createdDesc := fun _ _ => Nat.decLe _ _

instance : IsTotal Image createdDesc :=
  ⟨fun a b => Nat.le_total b.created_at a.created_at⟩

instance : IsTrans Image createdDesc :=
  ⟨fun _ _ _ h1 h2 => Nat.le_trans h2 h1⟩

/-- `Database.get_images(limit, offset)`: all image rows ordered by
creation time descending, then `LIMIT ? OFFSET ?`. -/
def get_images (db : DB) (limit : Nat := 100) (offset : Nat := 0) : List Image :=
  ((db.images.insertionSort createdDesc).drop offset).take limit

/-- Byte-order comparison of character lists: SQLite's default BINARY
collation compares UTF-8 bytes, which orders strings by code point. -/
def charListLe : List Char → List Char → Bool
  | [], _ => true
  | _ :: _, [] => false
  | a :: as, b :: bs =>
    if a.toNat < b.toNat then true
    else if b.toNat < a.toNat then false
    else charListLe as bs

/-- `ORDER BY name ASC` under the BINARY collation, as a relation on
strings. -/
def strLe (a b : String) : Prop := charListLe a.data b.data = true

instance : DecidableRel strLe := fun _ _ => Bool.decEq _ _

theorem charListLe_total : ∀ a b : List Char, charListLe a b = true ∨ charListLe b a = true
  | [], _ => Or.inl rfl
  | _ :: _, [] => Or.inr rfl
  | a :: as, b :: bs => by
    rcases Nat.lt_trichotomy a.toNat b.toNat with hlt | heq | hgt
    · exact Or.inl (by simp [charListLe, hlt])
    · have h1 : ¬ a.toNat < b.toNat := by omega
      have h2 : ¬ b.toNat < a.toNat := by omega
      rcases charListLe_total as bs with h | h
      · exact Or.inl (by simp [charListLe, h1, h2, h])
      · exact Or.inr (by simp [charListLe, h1, h2, heq, h])
    · exact Or.inr (by simp [charListLe, hgt])

theorem charListLe_trans : ∀ a b c : List Char,
    charListLe a b = true → charListLe b c = true → charListLe a c = true
  | [], _, _ => fun _ _ => rfl
  | a :: as, [], _ => by intro h; simp [charListLe] at h
  | _ :: _, _ :: _, [] => by intro _ h; simp [charListLe] at h
  | a :: as, b :: bs, c :: cs => by
    intro hab hbc
    simp only [charListLe] at hab hbc ⊢
    by_cases h1 : a.toNat < b.toNat
    · by_cases h2 : b.toNat < c.toNat
      · have hac : a.toNat < c.toNat := Nat.lt_trans h1 h2
        simp [hac]
      · by_cases h3 : c.toNat < b.toNat
        · rw [if_neg h2, if_pos h3] at hbc
          exact absurd hbc (by simp)
        · have hac : a.toNat < c.toNat := by omega
          simp [hac]
    · by_cases h4 : b.toNat < a.toNat
      · rw [if_neg h1, if_pos h4] at hab
        exact absurd hab (by simp)
      · rw [if_neg h1, if_neg h4] at hab
        by_cases h2 : b.toNat < c.toNat
        · have hac : a.toNat < c.toNat := by omega
          simp [hac]
        · by_cases h3 : c.toNat < b.toNat
          · rw [if_neg h2, if_pos h3] at hbc
            exact absurd hbc (by simp)
          · rw [if_neg h2, if_neg h3] at hbc
            have h5 : ¬ a.toNat < c.toNat := by omega
            have h6 : ¬ c.toNat < a.toNat := by omega
            rw [if_neg h5, if_neg h6]
            exact charListLe_trans as bs cs hab hbc

instance : IsTotal String strLe := ⟨fun a b => charListLe_total a.data b.data⟩

instance : IsTrans String strLe := ⟨fun a b c => charListLe_trans a.data b.data c.data⟩

/-- `Database.get_tags_for_image(image_id)`: names of the tags joined to
the image, `ORDER BY t.name ASC`. -/
def get_tags_for_image (db : DB) (image_id : Nat) : List String :=
  (((db.image_tags.filter (fun p => p.1 = image_id)).filterMap
      (fun p => (db.tags.find? (fun t => t.id = p.2)).map Tag.name)).insertionSort strLe)

/-- `Database.get_image_details(image_id)`: the image row plus its tag
list, or `None` for an unknown id.  The tag query is the same SQL text as
in `get_tags_for_image`, duplicated here as it is in the source. -/
def get_image_details (db : DB) (image_id : Nat) : Option (Image × List String) :=
  match db.images.find? (fun img => img.id = image_id) with
  | none => none
  | some img =>
    let tags :=
      (((db.image_tags.filter (fun p => p.1 = image_id)).filterMap
          (fun p => (db.tags.find? (fun t => t.id = p.2)).map Tag.name)).insertionSort strLe)
    some (img, tags)

/-- SQLite `LIKE` on character lists: `%` matches any run, `_` any single
character, and letter comparison folds ASCII case (SQLite's LIKE is
case-insensitive for the basic latin range only, like `Char.toLower`). -/
def likeMatch : List Char → List Char → Bool
  | [], s => s.isEmpty
  | p :: ps, s =>
    if p = '%' then
      likeMatch ps s ||
        (match s with
         | [] => false
         | _ :: cs => likeMatch (p :: ps) cs)
    else
      match s with
      | [] => false
      | c :: cs =>
        if p = '_' then likeMatch ps cs
        else (p.toLower = c.toLower) && likeMatch ps cs
termination_by p s => (s.length, p.length)

/-- The LIKE pattern built by `search_images`: `f"%{query.strip()}%"`. -/
def searchPattern (query : String) : List Char :=
  '%' :: (pyStrip query).data ++ ['%']

/-- The WHERE clause of `search_images` for one image row: the row
survives the LEFT JOINs iff its description matches, or some join row of
the image reaches a tag whose name matches (a NULL tag name from an
unmatched LEFT JOIN never matches). -/
def matchesSearch (db : DB) (pattern : List Char) (img : Image) : Bool :=
  likeMatch pattern img.description.data ||
    db.image_tags.any (fun p =>
      p.1 = img.id &&
        db.tags.any (fun t => t.id = p.2 && likeMatch pattern t.name.data))

/-- `Database.search_images(query, limit, offset)`: `SELECT DISTINCT`
image rows satisfying the WHERE clause (with unique ids, one output row
per matching image), `ORDER BY created_at DESC`, then `LIMIT/OFFSET`. -/
def search_images (db : DB) (query : String) (limit : Nat := 100)
    (offset : Nat := 0) : List Image :=
  ((((db.images.filter (matchesSearch db (searchPattern query))).insertionSort
      createdDesc).drop offset).take limit)

end Database

namespace Database

/-- Case-insensitive (ASCII) substring containment: the specification's
notion of "contains the query as a case-insensitive substring". -/
def ciContains (hay needle : String) : Prop :=
  (needle.data.map Char.toLower) <:+: (hay.data.map Char.toLower)

instance (hay needle : String) : Decidable (ciContains hay needle) := by
  unfold ciContains; exact List.decidableInfix _ _

/-- The specification's search predicate: the description, or the name of
at least one tag associated with the image, contains the query as a
case-insensitive substring. -/
def specSearchMatch (db : DB) (query : String) (img : Image) : Prop :=
  ciContains img.description query ∨
    ∃ t ∈ db.tags, (img.id, t.id) ∈ db.image_tags ∧ ciContains t.name query

/-- Modelled from the spec: `get_images(limit, offset, order)` with an
ascending option — "list ... images ordered by creation time (descending
by default, ascending optional)".  The source `get_images` has no order
parameter; this definition exists to compare the spec's claimed interface
with the code. -/
def get_images_spec (db : DB) (limit offset : Nat) (ascending : Bool) : List Image :=
  if ascending then
    ((db.images.insertionSort (fun a b => a.created_at ≤ b.created_at)).drop offset).take limit
  else
    ((db.images.insertionSort createdDesc).drop offset).take limit

end Database

section Claims

open AIEngine Database

/-- Empty database as created by `_ensure_db` (rowids start at 1). -/
def emptyDB : DB :=
  { images := [], tags := [], image_tags := []
    next_image_id := 1, next_tag_id := 1, now := 0 }

/-- C1: the claim says `analyze_image` never raises past its boundary, in
particular for non-dict shapes of the outer body or the nested document.
The code violates this: `.get` on a non-dict raises `AttributeError`,
which is absent from both `except` clauses.  This theorem evaluates the
code at two such failing inputs: a 2xx response whose JSON body is the
array `[]`, and a dict body whose nested `response` text decodes to the
array `[1, 2]`. -/
theorem analyze_image_raises_attributeError :
    analyze_image true { read := .ok, http := .ok (.arr []), loads := fun _ => none } =
      .error .attributeError ∧
    analyze_image true
        { read := .ok, http := .ok (.obj [("response", .str "[1, 2]")])
          loads := fun _ => some (.arr [.num 1, .num 2]) } =
      .error .attributeError :=
  ⟨rfl, rfl⟩

/-- C2 counterexample: a 2xx response whose `response` field holds a
string that is not valid JSON.  `_parse_ai_response` returns `None`, and
`parsed or MOCK_RESPONSE` yields the *unmodified* placeholder — its
description is the placeholder text, not the "unexpected response"
marker claimed by the spec. -/
theorem analyze_image_malformed_nested_returns_plain_mock :
    analyze_image true
        { read := .ok, http := .ok (.obj [("response", .str "not json")])
          loads := fun _ => none } = .ok MOCK_RESPONSE ∧
    MOCK_RESPONSE.description = .str "[DEV] A placeholder description of a cat." ∧
    "[DEV] A placeholder description of a cat." ≠ "[DEV] Unexpected AI response." :=
  ⟨rfl, rfl, by decide⟩

/-- C2 amended: when the HTTP call succeeds with a dict-shaped JSON body
and either the `response` field is absent or not a string, or the nested
text fails to decode as JSON, `analyze_image` returns the placeholder
payload unchanged (plain placeholder description, not the "unexpected
response" marker). -/
theorem analyze_image_parse_fallback (env : LiveEnv) (fields : List (String × PyVal))
    (hread : env.read = .ok) (hhttp : env.http = .ok (.obj fields))
    (hcase : (∀ s, pyGetD fields "response" .null ≠ .str s) ∨
             (∃ s, pyGetD fields "response" .null = .str s ∧ env.loads s = none)) :
    analyze_image true env = .ok MOCK_RESPONSE := by
  rcases hcase with hns | ⟨s, hs, hl⟩
  · cases hval : pyGetD fields "response" .null with
    | str s => exact absurd hval (hns s)
    | null => simp [analyze_image, hread, hhttp, parse_ai_response, hval]
    | bool b => simp [analyze_image, hread, hhttp, parse_ai_response, hval]
    | num n => simp [analyze_image, hread, hhttp, parse_ai_response, hval]
    | arr xs => simp [analyze_image, hread, hhttp, parse_ai_response, hval]
    | obj fs => simp [analyze_image, hread, hhttp, parse_ai_response, hval]
  · simp [analyze_image, hread, hhttp, parse_ai_response, hs, hl]

/-- C2 amended, witness at a concrete environment. -/
theorem analyze_image_parse_fallback_witness :
    analyze_image true
        { read := .ok, http := .ok (.obj [("response", .str "oops")])
          loads := fun _ => none } = .ok MOCK_RESPONSE :=
  analyze_image_parse_fallback _ [("response", .str "oops")] rfl rfl
    (Or.inr ⟨"oops", rfl, rfl⟩)

/-- C3 counterexample: live mode, nested JSON `{"description": "a river"}`
omitting `tags`.  The code computes `parsed.get("tags") or []`, which is a
list, so the result's tags are the *empty* list — not the placeholder's
tag list claimed by the spec (the description is preserved). -/
theorem analyze_image_omitted_tags_empty :
    analyze_image true
        { read := .ok, http := .ok (.obj [("response", .str "resp")])
          loads := fun _ => some (.obj [("description", .str "a river")]) } =
      .ok { description := .str "a river", tags := .arr [], nsfw := .bool false } ∧
    PyVal.arr [] ≠ MOCK_RESPONSE.tags :=
  ⟨rfl, by simp [MOCK_RESPONSE]⟩

/-- C3 amended: when the nested document is a dict whose `tags` entry is
absent (or falsy), the result's tags are the empty list; the description
from the nested document is preserved (falling back to the placeholder
description only when both `description` and `caption` are falsy).  The
placeholder tag list is used only when `tags` is present, truthy and not
a list. -/
theorem analyze_image_omitted_tags (env : LiveEnv) (fields pf : List (String × PyVal))
    (s : String)
    (hread : env.read = .ok) (hhttp : env.http = .ok (.obj fields))
    (hresp : pyGetD fields "response" .null = .str s)
    (hload : env.loads s = some (.obj pf))
    (htags : (pyGetD pf "tags" .null).truthy = false) :
    analyze_image true env = .ok
      { description :=
          if (pyGetD pf "description" .null).truthy then pyGetD pf "description" .null
          else if (pyGetD pf "caption" .null).truthy then pyGetD pf "caption" .null
          else MOCK_RESPONSE.description
        tags := .arr []
        nsfw := .bool (pyGetD pf "nsfw" (.bool false)).truthy } := by
  by_cases hd : (pyGetD pf "description" PyVal.null).truthy <;>
    simp [analyze_image, hread, hhttp, parse_ai_response, hresp, hload, htags, hd]

/-- C3 amended, witness at a concrete environment. -/
theorem analyze_image_omitted_tags_witness :
    analyze_image true
        { read := .ok, http := .ok (.obj [("response", .str "r")])
          loads := fun _ => some (.obj [("description", .str "a river")]) } =
      .ok { description :=
              if (pyGetD [("description", PyVal.str "a river")] "description" .null).truthy then
                pyGetD [("description", PyVal.str "a river")] "description" .null
              else if (pyGetD [("description", PyVal.str "a river")] "caption" .null).truthy then
                pyGetD [("description", PyVal.str "a river")] "caption" .null
              else MOCK_RESPONSE.description
            tags := .arr []
            nsfw := .bool (pyGetD [("description", PyVal.str "a river")] "nsfw"
              (.bool false)).truthy } :=
  analyze_image_omitted_tags _ [("response", .str "r")]
    [("description", .str "a river")] "r" rfl rfl rfl rfl rfl

/-- C4: adding the same path twice returns the same id both times and the
second call leaves the whole store unchanged — no second row, and the
existing row's description and processed flag are untouched, whatever the
second call's arguments are. -/
theorem add_image_idempotent (db : DB) (path d1 d2 : String) (f1 f2 : Bool) :
    (add_image (add_image db path d1 f1).2 path d2 f2).1 = (add_image db path d1 f1).1 ∧
    (add_image (add_image db path d1 f1).2 path d2 f2).2 = (add_image db path d1 f1).2 := by
  unfold add_image
  cases hfind : db.images.find? (fun img => img.path = path) with
  | some img => simp [hfind]
  | none => simp [hfind, List.find?_append, List.find?_cons]

end Claims

section Claims2

open Database

/-- A store already holding the tag `"A"` (id 1), as left by an earlier
`upsert_tags(["A"])` on a fresh store. -/
def dbTagA : DB :=
  { images := [], tags := [{ id := 1, name := "A" }], image_tags := []
    next_image_id := 1, next_tag_id := 2, now := 0 }

/-- C5: the claim says `upsert_tags` returns, for each surviving name, the
id of *that* name's tag row.  The code is wrong: on one connection, an
IGNOREd `INSERT OR IGNORE` leaves `cursor.lastrowid` at the rowid of the
last *successful* insert, which is truthy, so the SELECT fallback is
skipped and the stale id is returned.  Evaluating the code:
`upsert_tags(["b", "A"])` on a store holding `"A"` (id 1) inserts `"b"`
(id 2) and then returns the stale id 2 for `"A"` as well — `[2, 2]`
instead of `[2, 1]`. -/
theorem upsert_tags_stale_lastrowid :
    (upsert_tags dbTagA ["b", "A"]).1 = [2, 2] ∧
    (upsert_tags dbTagA ["b", "A"]).2.tags =
      [{ id := 1, name := "A" }, { id := 2, name := "b" }] ∧
    dbTagA.tags.find? (fun t => t.name = "A") = some { id := 1, name := "A" } :=
  ⟨by decide, by decide, by decide⟩

theorem count_eq_one_of_nodup_mem {α : Type} [BEq α] [LawfulBEq α] {l : List α} {a : α}
    (h : l.Nodup) (ha : a ∈ l) : l.count a = 1 := by
  induction l with
  | nil => cases ha
  | cons x xs ih =>
    rcases List.mem_cons.mp ha with rfl | hmem
    · have hnx : a ∉ xs := (List.nodup_cons.mp h).1
      rw [List.count_cons_self, List.count_eq_zero.mpr hnx]
    · have hne : a ≠ x := fun he => (List.nodup_cons.mp h).1 (he ▸ hmem)
      rw [List.count_cons_of_ne hne, ih (List.nodup_cons.mp h).2 hmem]

/-- C6: linking the same (image, tag) pair twice (with both rows present,
so the foreign keys hold) succeeds both times, the second call returns the
state unchanged, and the pair has exactly one join row. -/
theorem link_tags_to_image_idempotent (db : DB) (i t : Nat) (h : Wf db)
    (hi : ∃ img ∈ db.images, img.id = i) (ht : ∃ tg ∈ db.tags, tg.id = t) :
    ∃ db1, link_tags_to_image db i [t] = some db1 ∧
      link_tags_to_image db1 i [t] = some db1 ∧
      db1.image_tags.count (i, t) = 1 := by
  obtain ⟨img, himg, hieq⟩ := hi
  obtain ⟨tg, htg, hteq⟩ := ht
  have hfk : fkOk db i t = true := by
    unfold fkOk
    simp only [Bool.and_eq_true, List.any_eq_true]
    exact ⟨⟨img, himg, by simp [hieq]⟩, ⟨tg, htg, by simp [hteq]⟩⟩
  by_cases hmem : (i, t) ∈ db.image_tags
  · refine ⟨db, ?_, ?_, ?_⟩
    · simp [link_tags_to_image, hfk, hmem]
    · simp [link_tags_to_image, hfk, hmem]
    · exact count_eq_one_of_nodup_mem h.2.2.1 hmem
  · refine ⟨{ db with image_tags := db.image_tags ++ [(i, t)] }, ?_, ?_, ?_⟩
    · simp [link_tags_to_image, hfk, hmem]
    · have hfk1 : fkOk { db with image_tags := db.image_tags ++ [(i, t)] } i t = true := by
        unfold fkOk at hfk ⊢
        exact hfk
      simp [link_tags_to_image, hfk1]
    · have hcz : db.image_tags.count (i, t) = 0 := List.count_eq_zero.mpr hmem
      simp [List.count_append, hcz]

/-- C6 witness: a store with one image and one tag. -/
theorem link_tags_to_image_idempotent_witness :
    ∃ db1,
      link_tags_to_image
        { images := [{ id := 1, path := "/a", description := "", processed_flag := false,
                       created_at := 0 }]
          tags := [{ id := 1, name := "cat" }], image_tags := []
          next_image_id := 2, next_tag_id := 2, now := 1 } 1 [1] = some db1 ∧
      link_tags_to_image db1 1 [1] = some db1 ∧
      db1.image_tags.count (1, 1) = 1 :=
  link_tags_to_image_idempotent _ 1 1 (by unfold Wf; decide)
    ⟨{ id := 1, path := "/a", description := "", processed_flag := false, created_at := 0 },
      by decide, rfl⟩
    ⟨{ id := 1, name := "cat" }, by decide, rfl⟩

/-- C10: whenever `get_image_details` finds the image, the embedded tag
list equals `get_tags_for_image`, is sorted alphabetically, and is a
permutation of the names reached from the image's join rows. -/
theorem get_image_details_tags_eq (db : DB) (i : Nat) (img : Image) (tags : List String)
    (h : get_image_details db i = some (img, tags)) :
    tags = get_tags_for_image db i ∧
    tags.Sorted strLe ∧
    tags.Perm ((db.image_tags.filter (fun p => p.1 = i)).filterMap
      (fun p => (db.tags.find? (fun t => t.id = p.2)).map Tag.name)) := by
  unfold get_image_details at h
  cases hfind : db.images.find? (fun img => img.id = i) with
  | none => rw [hfind] at h; exact absurd h (by simp)
  | some img0 =>
    rw [hfind] at h
    have htags : tags = (((db.image_tags.filter (fun p => p.1 = i)).filterMap
        (fun p => (db.tags.find? (fun t => t.id = p.2)).map Tag.name)).insertionSort strLe) := by
      simpa using congrArg (fun o => (o.map Prod.snd).getD []) h.symm
    refine ⟨htags ▸ rfl, ?_, ?_⟩
    · rw [htags]; exact List.sorted_insertionSort _ _
    · rw [htags]; exact List.perm_insertionSort _ _

/-- C10 witness: one image with two tags. -/
theorem get_image_details_tags_eq_witness :
    ([ "ant", "bee" ] : List String) = get_tags_for_image
      { images := [{ id := 1, path := "/a", description := "", processed_flag := false,
                     created_at := 0 }]
        tags := [{ id := 1, name := "bee" }, { id := 2, name := "ant" }]
        image_tags := [(1, 1), (1, 2)]
        next_image_id := 2, next_tag_id := 3, now := 1 } 1 ∧
    ([ "ant", "bee" ] : List String).Sorted strLe ∧
    ([ "ant", "bee" ] : List String).Perm
      ((([((1 : Nat), (1 : Nat)), (1, 2)]).filter (fun p => p.1 = 1)).filterMap
        (fun p => (([{ id := 1, name := "bee" }, { id := 2, name := "ant" }]
            : List Tag).find? (fun t => t.id = p.2)).map Tag.name)) := by
  have h := get_image_details_tags_eq
    { images := [{ id := 1, path := "/a", description := "", processed_flag := false,
                   created_at := 0 }]
      tags := [{ id := 1, name := "bee" }, { id := 2, name := "ant" }]
      image_tags := [(1, 1), (1, 2)]
      next_image_id := 2, next_tag_id := 3, now := 1 } 1
    { id := 1, path := "/a", description := "", processed_flag := false, created_at := 0 }
    ["ant", "bee"] (by decide)
  exact h

end Claims2

section Claims3

open Database

/-- An image imported at time 0 — the older row. -/
def imgEarly : Image :=
  { id := 1, path := "/a", description := "", processed_flag := false, created_at := 0 }

/-- An image imported at time 1 — the newer row. -/
def imgLate : Image :=
  { id := 2, path := "/b", description := "", processed_flag := false, created_at := 1 }

/-- A store holding the two images above. -/
def dbTwo : DB :=
  { images := [imgEarly, imgLate], tags := [], image_tags := []
    next_image_id := 3, next_tag_id := 1, now := 2 }

/-- C8 counterexample: the source `get_images`/`search_images` take no
order argument — every call orders by creation time descending.  On a
two-image store, the listing that the claimed ascending option would
produce (per the spec-modelled `get_images_spec` with `ascending = true`)
is not what any call of the code returns. -/
theorem get_images_no_ascending_option :
    get_images dbTwo 100 0 = [imgLate, imgEarly] ∧
    search_images dbTwo "" 100 0 = [imgLate, imgEarly] ∧
    get_images_spec dbTwo 100 0 true = [imgEarly, imgLate] ∧
    ([imgLate, imgEarly] : List Image) ≠ [imgEarly, imgLate] :=
  ⟨by decide,
   by simp [search_images, matchesSearch, searchPattern, pyStrip, likeMatch, dbTwo,
        imgEarly, imgLate, List.insertionSort, List.orderedInsert, createdDesc],
   by decide, by decide⟩

/-- C8 amended: `get_images` and `search_images` take only a limit and an
offset; their output is always ordered by creation time descending
(newest first) — no ascending option exists. -/
theorem images_listed_newest_first (db : DB) (q : String) (limit offset : Nat) :
    (get_images db limit offset).Pairwise createdDesc ∧
    (search_images db q limit offset).Pairwise createdDesc := by
  constructor
  · have hs : (db.images.insertionSort createdDesc).Pairwise createdDesc :=
      List.sorted_insertionSort createdDesc db.images
    exact List.Pairwise.sublist
      ((List.take_sublist _ _).trans (List.drop_sublist _ _)) hs
  · have hs : ((db.images.filter
        (matchesSearch db (searchPattern q))).insertionSort createdDesc).Pairwise
        createdDesc :=
      List.sorted_insertionSort createdDesc _
    exact List.Pairwise.sublist
      ((List.take_sublist _ _).trans (List.drop_sublist _ _)) hs

/-- `add_image` preserves the store invariants. -/
theorem add_image_wf (db : DB) (path d : String) (f : Bool) (h : Wf db) :
    Wf (add_image db path d f).2 := by
  obtain ⟨h1, h2, h3, h4, h5, h6, h7⟩ := h
  unfold add_image
  cases hfind : db.images.find? (fun img => img.path = path) with
  | some img => exact ⟨h1, h2, h3, h4, h5, h6, h7⟩
  | none =>
    have hnp : ∀ x ∈ db.images, x.path ≠ path := by
      intro x hx
      have := List.find?_eq_none.mp hfind x hx
      simpa using this
    refine ⟨?_, h2, h3, ?_, h5, ?_, h7⟩
    · rw [List.pairwise_append]
      refine ⟨h1, List.pairwise_singleton _ _, ?_⟩
      intro a ha b hb
      rw [List.mem_singleton] at hb
      subst hb
      exact ⟨Nat.ne_of_lt (h4 a ha).2, hnp a ha⟩
    · intro img hmem
      rcases List.mem_append.mp hmem with hm | hm
      · exact ⟨(h4 img hm).1, Nat.lt_succ_of_lt (h4 img hm).2⟩
      · rw [List.mem_singleton] at hm
        subst hm
        exact ⟨h6, Nat.lt_succ_self _⟩
    · exact Nat.le_succ_of_le h6

/-- `update_image_metadata` preserves the store invariants. -/
theorem update_image_metadata_wf (db : DB) (i : Nat) (d : String) (f : Bool)
    (h : Wf db) : Wf (update_image_metadata db i d f) := by
  obtain ⟨h1, h2, h3, h4, h5, h6, h7⟩ := h
  unfold update_image_metadata
  have hid : ∀ a : Image,
      ((fun img => if img.id = i then
          { img with description := d, processed_flag := f } else img) a).id = a.id := by
    intro a; by_cases ha : a.id = i <;> simp [ha]
  have hpath : ∀ a : Image,
      ((fun img => if img.id = i then
          { img with description := d, processed_flag := f } else img) a).path = a.path := by
    intro a; by_cases ha : a.id = i <;> simp [ha]
  refine ⟨?_, h2, h3, ?_, h5, h6, h7⟩
  · refine List.Pairwise.map _ ?_ h1
    intro a b hab
    rw [hid a, hid b, hpath a, hpath b]
    exact hab
  · intro img hmem
    obtain ⟨x, hx, hxe⟩ := List.mem_map.mp hmem
    have : img.id = x.id := by rw [← hxe, hid x]
    rw [this]
    exact h4 x hx

/-- `clear_tags` preserves the store invariants. -/
theorem clear_tags_wf (db : DB) (i : Nat) (h : Wf db) : Wf (clear_tags db i) := by
  obtain ⟨h1, h2, h3, h4, h5, h6, h7⟩ := h
  exact ⟨h1, h2, h3.filter _, h4, h5, h6, h7⟩

/-- The join-insert fold of `link_tags_to_image` keeps the join rows
duplicate-free. -/
theorem linkFold_nodup (i : Nat) (l : List Nat) (rows : List (Nat × Nat))
    (hr : rows.Nodup) :
    (l.foldl (fun rows tid =>
      if (i, tid) ∈ rows then rows else rows ++ [(i, tid)]) rows).Nodup := by
  induction l generalizing rows with
  | nil => exact hr
  | cons t ts ih =>
    rw [List.foldl_cons]
    by_cases hm : (i, t) ∈ rows
    · rw [if_pos hm]; exact ih rows hr
    · rw [if_neg hm]
      apply ih
      rw [List.nodup_append]
      exact ⟨hr, List.nodup_singleton _, by simpa [List.disjoint_singleton] using hm⟩

/-- `link_tags_to_image` preserves the store invariants whenever it
succeeds. -/
theorem link_tags_to_image_wf (db : DB) (i : Nat) (tids : List Nat) (db1 : DB)
    (h : Wf db) (hl : link_tags_to_image db i tids = some db1) : Wf db1 := by
  obtain ⟨h1, h2, h3, h4, h5, h6, h7⟩ := h
  unfold link_tags_to_image at hl
  by_cases hfk : tids.all (fun tid => fkOk db i tid) = true
  · rw [if_pos hfk] at hl
    have hdb1 : db1 = { db with image_tags := tids.foldl (fun rows tid =>
        if (i, tid) ∈ rows then rows else rows ++ [(i, tid)]) db.image_tags } :=
      (Option.some.injEq _ _ ▸ hl).symm
    subst hdb1
    exact ⟨h1, h2, linkFold_nodup i tids db.image_tags h3, h4, h5, h6, h7⟩
  · rw [if_neg hfk] at hl
    exact absurd hl (by simp)

/-- `upsertLoop` preserves the store invariants. -/
theorem upsertLoop_wf : ∀ (names : List String) (db : DB) (lr : Nat), Wf db →
    Wf (upsertLoop db lr names).2
  | [], _, _ => fun h => h
  | n :: rest, db, lr => by
    intro h
    obtain ⟨h1, h2, h3, h4, h5, h6, h7⟩ := h
    unfold upsertLoop
    cases hfind : db.tags.find? (fun t => t.name = n) with
    | some t =>
      exact upsertLoop_wf rest db lr ⟨h1, h2, h3, h4, h5, h6, h7⟩
    | none =>
      apply upsertLoop_wf rest
      have hnn : ∀ x ∈ db.tags, x.name ≠ n := by
        intro x hx
        have := List.find?_eq_none.mp hfind x hx
        simpa using this
      refine ⟨h1, ?_, h3, h4, ?_, h6, ?_⟩
      · rw [List.pairwise_append]
        refine ⟨h2, List.pairwise_singleton _ _, ?_⟩
        intro a ha b hb
        rw [List.mem_singleton] at hb
        subst hb
        exact ⟨Nat.ne_of_lt (h5 a ha).2, hnn a ha⟩
      · intro t hmem
        rcases List.mem_append.mp hmem with hm | hm
        · exact ⟨(h5 t hm).1, Nat.lt_succ_of_lt (h5 t hm).2⟩
        · rw [List.mem_singleton] at hm
          subst hm
          exact ⟨h7, Nat.lt_succ_self _⟩
      · exact Nat.le_succ_of_le h7

/-- C9: every mutating store operation preserves the schema invariants —
no two image rows share a path (or id), no two tag rows share a name (or
id), and each (image id, tag id) pair has at most one join row. -/
theorem store_operations_preserve_invariants (db : DB) (path d d2 : String)
    (f f2 : Bool) (i j k : Nat) (names : List String) (tids : List Nat)
    (h : Wf db) :
    Wf (add_image db path d f).2 ∧
    Wf (update_image_metadata db i d2 f2) ∧
    Wf (upsert_tags db names).2 ∧
    (∀ db1, link_tags_to_image db j tids = some db1 → Wf db1) ∧
    Wf (clear_tags db k) :=
  ⟨add_image_wf db path d f h,
   update_image_metadata_wf db i d2 f2 h,
   upsertLoop_wf (cleanNames names) db 0 h,
   fun db1 hl => link_tags_to_image_wf db j tids db1 h hl,
   clear_tags_wf db k h⟩

/-- C9 witness: the fresh store and concrete arguments. -/
theorem store_operations_preserve_invariants_witness :
    Wf (add_image
      { images := [], tags := [], image_tags := []
        next_image_id := 1, next_tag_id := 1, now := 0 } "/p" "d" false).2 ∧
    Wf (update_image_metadata
      { images := [], tags := [], image_tags := []
        next_image_id := 1, next_tag_id := 1, now := 0 } 1 "x" true) ∧
    Wf (upsert_tags
      { images := [], tags := [], image_tags := []
        next_image_id := 1, next_tag_id := 1, now := 0 } ["cat", "  "]).2 ∧
    (∀ db1, link_tags_to_image
      { images := [], tags := [], image_tags := []
        next_image_id := 1, next_tag_id := 1, now := 0 } 1 [1] = some db1 → Wf db1) ∧
    Wf (clear_tags
      { images := [], tags := [], image_tags := []
        next_image_id := 1, next_tag_id := 1, now := 0 } 2) :=
  store_operations_preserve_invariants _ "/p" "d" "x" false true 1 1 2 ["cat", "  "] [1]
    (by unfold Wf; decide)

end Claims3

section Claims4

open Database

theorem likeMatch_pct_nil : ∀ s : List Char, likeMatch ['%'] s = true
  | [] => by simp [likeMatch]
  | _ :: cs => by
    have ih := likeMatch_pct_nil cs
    simp [likeMatch, ih]

theorem likeMatch_pct_iff (ps : List Char) : ∀ s : List Char,
    likeMatch ('%' :: ps) s = true ↔
      ∃ s1 s2, s = s1 ++ s2 ∧ likeMatch ps s2 = true := by
  intro s
  induction s with
  | nil =>
    simp only [likeMatch]
    constructor
    · intro h
      refine ⟨[], [], rfl, ?_⟩
      simpa using h
    · rintro ⟨s1, s2, he, h⟩
      obtain ⟨rfl, rfl⟩ := List.append_eq_nil.mp he.symm
      simpa using h
  | cons c cs ih =>
    constructor
    · intro h
      have h' : likeMatch ps (c :: cs) = true ∨ likeMatch ('%' :: ps) cs = true := by
        simpa [likeMatch] using h
      rcases h' with h' | h'
      · exact ⟨[], c :: cs, rfl, h'⟩
      · obtain ⟨s1, s2, rfl, hm⟩ := (ih.mp h')
        exact ⟨c :: s1, s2, rfl, hm⟩
    · rintro ⟨s1, s2, he, hm⟩
      cases s1 with
      | nil =>
        simp only [List.nil_append] at he
        subst he
        simp [likeMatch, hm]
      | cons c1 s1 =>
        simp only [List.cons_append, List.cons.injEq] at he
        obtain ⟨rfl, he2⟩ := he
        have : likeMatch ('%' :: ps) cs = true := ih.mpr ⟨s1, s2, he2, hm⟩
        simp [likeMatch, this]

theorem likeMatch_lit_pct_iff : ∀ (q s : List Char),
    (∀ c ∈ q, c ≠ '%' ∧ c ≠ '_') →
    (likeMatch (q ++ ['%']) s = true ↔
      ∃ s1 s2, s = s1 ++ s2 ∧ s1.map Char.toLower = q.map Char.toLower)
  | [], s, _ => by
    simp only [List.nil_append, List.map_nil]
    constructor
    · intro _
      exact ⟨[], s, rfl, rfl⟩
    · intro _
      exact likeMatch_pct_nil s
  | a :: q', s, hw => by
    have ha : a ≠ '%' ∧ a ≠ '_' := hw a (List.mem_cons_self a q')
    cases s with
    | nil =>
      simp only [List.cons_append, likeMatch, ha.1, if_neg]
      constructor
      · intro h
        simp [ha.1] at h
      · rintro ⟨s1, s2, he, hm⟩
        obtain ⟨rfl, rfl⟩ := List.append_eq_nil.mp he.symm
        simp at hm
    | cons c cs =>
      have ih := likeMatch_lit_pct_iff q' cs (fun x hx => hw x (List.mem_cons_of_mem a hx))
      constructor
      · intro h
        have h' : a.toLower = c.toLower ∧ likeMatch (q' ++ ['%']) cs = true := by
          simpa [likeMatch, ha.1, ha.2] using h
        obtain ⟨s1, s2, rfl, hm⟩ := ih.mp h'.2
        exact ⟨c :: s1, s2, rfl, by simp [hm, h'.1]⟩
      · rintro ⟨s1, s2, he, hm⟩
        cases s1 with
        | nil => simp at hm
        | cons c1 s1 =>
          simp only [List.cons_append, List.cons.injEq] at he
          obtain ⟨rfl, he2⟩ := he
          simp only [List.map_cons, List.cons.injEq] at hm
          have hrec : likeMatch (q' ++ ['%']) cs = true := ih.mpr ⟨s1, s2, he2, hm.2⟩
          simp [likeMatch, ha.1, ha.2, hm.1, hrec]

theorem likeMatch_wrap_iff (q s : List Char) (hw : ∀ c ∈ q, c ≠ '%' ∧ c ≠ '_') :
    likeMatch ('%' :: (q ++ ['%'])) s = true ↔
      (q.map Char.toLower) <:+: (s.map Char.toLower) := by
  rw [likeMatch_pct_iff]
  constructor
  · rintro ⟨s1, s2, rfl, h2⟩
    obtain ⟨t1, t2, rfl, ht⟩ := (likeMatch_lit_pct_iff q s2 hw).mp h2
    refine ⟨s1.map Char.toLower, t2.map Char.toLower, ?_⟩
    simp [← ht]
  · rintro ⟨u, v, huv⟩
    have huv' : s.map Char.toLower = u ++ ((q.map Char.toLower) ++ v) := by
      rw [← huv]; simp
    obtain ⟨l1, l2, rfl, _, hl2⟩ := List.map_eq_append_iff.mp huv'
    obtain ⟨m1, m2, rfl, hm1, _⟩ := List.map_eq_append_iff.mp hl2
    exact ⟨l1, m1 ++ m2, rfl,
      (likeMatch_lit_pct_iff q (m1 ++ m2) hw).mpr ⟨m1, m2, rfl, hm1⟩⟩

end Claims4

section Claims5

open Database

/-- An image whose description is `"cat"`. -/
def imgCat : Image :=
  { id := 1, path := "/c", description := "cat", processed_flag := false, created_at := 0 }

/-- A store holding only `imgCat`, with no tags at all. -/
def dbCat : DB :=
  { images := [imgCat], tags := [], image_tags := []
    next_image_id := 2, next_tag_id := 1, now := 1 }

/-- C7 counterexample: the query `"c%t"` is not a substring of the
description `"cat"` (and the store has no tags), yet `search_images`
returns the image — `%` in the query acts as an SQL wildcard, so the
result set is not "exactly the images containing the query as a
case-insensitive substring". -/
theorem search_images_wildcard_counterexample :
    search_images dbCat "c%t" 100 0 = [imgCat] ∧
    ¬ ciContains imgCat.description "c%t" ∧
    dbCat.image_tags = [] :=
  ⟨by simp [search_images, matchesSearch, searchPattern, pyStrip, likeMatch, dbCat, imgCat,
      List.insertionSort, List.orderedInsert, createdDesc],
   by decide, rfl⟩

/-- C7 amended: for queries with no SQL wildcard characters (`%`, `_`)
and no surrounding whitespace (the code strips the query before
matching), `search_images` with offset 0 and a limit at least the number
of images returns exactly the images whose description, or at least one
associated tag name, contains the query as a case-insensitive substring;
each matching image appears at most once. -/
theorem search_images_exact (db : DB) (q : String) (h : Wf db)
    (hq : pyStrip q = q) (hw : ∀ c ∈ q.data, c ≠ '%' ∧ c ≠ '_') :
    (∀ img, img ∈ search_images db q db.images.length 0 ↔
       img ∈ db.images ∧ specSearchMatch db q img) ∧
    (search_images db q db.images.length 0).Nodup := by
  have hpat : searchPattern q = '%' :: (q.data ++ ['%']) := by
    simp [searchPattern, hq]
  have hmatch : ∀ img : Image,
      (matchesSearch db (searchPattern q) img = true ↔ specSearchMatch db q img) := by
    intro img
    unfold matchesSearch specSearchMatch
    rw [hpat, Bool.or_eq_true]
    constructor
    · rintro (hdesc | htag)
      · exact Or.inl ((likeMatch_wrap_iff _ _ hw).mp hdesc)
      · right
        rw [List.any_eq_true] at htag
        obtain ⟨p, hp, hpe⟩ := htag
        rw [Bool.and_eq_true] at hpe
        obtain ⟨hp1, hp2⟩ := hpe
        rw [List.any_eq_true] at hp2
        obtain ⟨t, ht, hte⟩ := hp2
        rw [Bool.and_eq_true] at hte
        obtain ⟨ht1, ht2⟩ := hte
        refine ⟨t, ht, ?_, (likeMatch_wrap_iff _ _ hw).mp ht2⟩
        have hp1' : p.1 = img.id := by simpa using hp1
        have ht1' : t.id = p.2 := by simpa using ht1
        have hpe2 : (img.id, t.id) = p := by rw [← hp1', ht1']
        rwa [hpe2]
    · rintro (hdesc | ⟨t, ht, hmem, hci⟩)
      · exact Or.inl ((likeMatch_wrap_iff _ _ hw).mpr hdesc)
      · right
        rw [List.any_eq_true]
        refine ⟨(img.id, t.id), hmem, ?_⟩
        rw [Bool.and_eq_true]
        refine ⟨by simp, ?_⟩
        rw [List.any_eq_true]
        exact ⟨t, ht, by simp [(likeMatch_wrap_iff _ _ hw).mpr hci]⟩
  have hlen : ((db.images.filter
      (matchesSearch db (searchPattern q))).insertionSort createdDesc).length ≤
      db.images.length := by
    rw [(List.perm_insertionSort _ _).length_eq]
    exact List.length_filter_le _ _
  have hsearch : search_images db q db.images.length 0 =
      (db.images.filter (matchesSearch db (searchPattern q))).insertionSort createdDesc := by
    unfold search_images
    rw [List.drop_zero, List.take_of_length_le hlen]
  constructor
  · intro img
    rw [hsearch, (List.perm_insertionSort _ _).mem_iff, List.mem_filter]
    exact and_congr_right (fun _ => hmatch img)
  · rw [hsearch]
    apply (List.perm_insertionSort _ _).nodup_iff.mpr
    apply List.Nodup.filter
    exact h.1.imp (fun hab => fun he => hab.1 (congrArg Image.id he))

/-- C7 amended, witness on the concrete one-image store. -/
theorem search_images_exact_witness :
    (∀ img, img ∈ search_images dbCat "cat" dbCat.images.length 0 ↔
       img ∈ dbCat.images ∧ specSearchMatch dbCat "cat" img) ∧
    (search_images dbCat "cat" dbCat.images.length 0).Nodup :=
  search_images_exact dbCat "cat" (by unfold Wf; decide) (by decide) (by decide)

end Claims5
